import Mathlib

/-!
Shallow embedding of `build-support/pg_regress_postprocess_output.py`, a
line-oriented normalizer for regression-test output files.  Lines are modelled
as lists of characters; the file's processing pipeline (per-line `rstrip`,
UUID-v4 masking, the sentinel/skip-state main loop, trailing-blank-line
removal, serialization) is translated function by function.
-/

/-- A line of the document, as a list of characters. -/
abbrev Line := List Char

/-- Whitespace characters removed by Python's default `str.rstrip` / `str.strip`
(ASCII fragment: space, tab, newline, carriage return, vertical tab, form feed). -/
def isPySpace (c : Char) : Bool :=
  c = ' ' || c = '\t' || c = '\n' || c = '\r' || c = '\x0b' || c = '\x0c'

/-- Python `line.rstrip()`: remove trailing whitespace. -/
def rstrip (cs : List Char) : List Char :=
  (cs.reverse.dropWhile isPySpace).reverse

/-- Python `line.strip()`: remove leading and trailing whitespace. -/
def strip (cs : List Char) : List Char :=
  ((cs.dropWhile isPySpace).reverse.dropWhile isPySpace).reverse

/-- `SANITIZER_SEPARATOR_LINE = '-' * 53`. -/
def SANITIZER_SEPARATOR_LINE : Line := List.replicate 53 '-'

/-- The literal line `-- YB_DATA_END` (the truncation sentinel). -/
def YB_DATA_END : Line := "-- YB_DATA_END".toList

/-- The literal line `Suppressions used:`. -/
def SUPPRESSIONS_USED : Line := "Suppressions used:".toList

/-- The fixed 36-character replacement written for each UUID match. -/
def MASK_STR : List Char := "********-****-4***-****-************".toList

/-- `[0-9A-Fa-f]` of the UUID regex. -/
def hexDigit (c : Char) : Bool :=
  ('0' ≤ c && c ≤ '9') || ('A' ≤ c && c ≤ 'F') || ('a' ≤ c && c ≤ 'f')

/-- `[89ABab]` of the UUID regex (variant nibble). -/
def variantDigit (c : Char) : Bool :=
  c = '8' || c = '9' || c = 'A' || c = 'B' || c = 'a' || c = 'b'

/-- Character class required at offset `k` (0-based) of a UUID-v4 match:
offsets 8, 13, 18, 23 are dashes, offset 14 is the literal `4`, offset 19 the
variant nibble, everything else a hex digit.  This transcribes the regex
`[0-9A-Fa-f]{8}-[0-9A-Fa-f]{4}-4[0-9A-Fa-f]{3}-[89ABab][0-9A-Fa-f]{3}-[0-9A-Fa-f]{12}`. -/
def uuidClassAt (k : Nat) (c : Char) : Bool :=
  if k == 8 || k == 13 || k == 18 || k == 23 then c = '-'
  else if k == 14 then c = '4'
  else if k == 19 then variantDigit c
  else hexDigit c

/-- The UUID regex matches `cs` at position `i` (a full 36-character match). -/
def uuidAt (cs : List Char) (i : Nat) : Bool :=
  decide (i + 36 ≤ cs.length) &&
    (List.range 36).all (fun k => uuidClassAt k (cs.getD (i + k) ' '))

/-- `re.finditer` for the fixed-width UUID pattern: scan positions left to
right; on a match record its start and resume after the match (non-overlapping
leftmost matches), otherwise advance one position.  `fuel` bounds the scan and
is instantiated with the length of the string. -/
def findUuidStartsAux (cs : List Char) : Nat → Nat → List Nat
  | 0, _ => []
  | fuel + 1, i =>
    if i < cs.length then
      if uuidAt cs i then i :: findUuidStartsAux cs fuel (i + 36)
      else findUuidStartsAux cs fuel (i + 1)
    else []

/-- Start indices of all non-overlapping leftmost UUID matches
(`uuid_start_indices` in the source). -/
def findUuidStarts (cs : List Char) : List Nat :=
  findUuidStartsAux cs cs.length 0

/-- The splice loop of `mask_uuid4s`: `prev_index` starts at 0; for each match
start `i` append `unmasked_line[prev_index:i]` and the mask, and set
`prev_index = i + 36`; finally append `unmasked_line[prev_index:]`. -/
def spliceMaskAux (cs : List Char) (prev : Nat) : List Nat → List Char
  | [] => cs.drop prev
  | i :: rest => (cs.drop prev).take (i - prev) ++ MASK_STR ++ spliceMaskAux cs (i + 36) rest

/-- `mask_uuid4s`: replace every non-overlapping leftmost UUID-v4 match with
the fixed 36-character mask. -/
def mask_uuid4s (unmasked_line : List Char) : List Char :=
  spliceMaskAux unmasked_line 0 (findUuidStarts unmasked_line)

/-- Lookahead `i + 1 < len(lines) and lines[i + 1] == 'Suppressions used:'`:
false when there is no next line. -/
def headerNext : List Line → Bool
  | [] => false
  | next :: _ => decide (next = SUPPRESSIONS_USED)

/-- The main `while` loop of the source: per line, break on the sentinel,
enter skipping on a separator followed by the suppressions header, emit the
line when not skipping and not absorbing the one blank line after a block,
and leave skipping on a separator that did not just trigger entry. -/
def mainLoop : List Line → Bool → Bool → List Line
  | [], _, _ => []
  | l :: rest, skipping, justStopped =>
    if l = YB_DATA_END then []
    else
      let justStarted : Bool := decide (l = SANITIZER_SEPARATOR_LINE) && headerNext rest
      let skipping1 : Bool := skipping || justStarted
      let emit : Bool := !skipping1 && !(justStopped && (strip l).isEmpty)
      let close : Bool :=
        skipping1 && decide (l = SANITIZER_SEPARATOR_LINE) && !justStarted
      (if emit then [l] else []) ++ mainLoop rest (if close then false else skipping1) close

/-- The same loop, observed through its mutable state: the final values of
`(skipping, just_stopped_skipping)` after the loop ends (at the sentinel break
this is the state current at the break). -/
def mainLoopState : List Line → Bool → Bool → Bool × Bool
  | [], skipping, justStopped => (skipping, justStopped)
  | l :: rest, skipping, justStopped =>
    if l = YB_DATA_END then (skipping, justStopped)
    else
      let justStarted : Bool := decide (l = SANITIZER_SEPARATOR_LINE) && headerNext rest
      let skipping1 : Bool := skipping || justStarted
      let close : Bool :=
        skipping1 && decide (l = SANITIZER_SEPARATOR_LINE) && !justStarted
      mainLoopState rest (if close then false else skipping1) close

/-- The trailing loop of the source: drop blank lines (`strip() == ''`) from
the end of `result_lines`. -/
def trimTrailingBlanks (ls : List Line) : List Line :=
  (ls.reverse.dropWhile (fun l => (strip l).isEmpty)).reverse

/-- Stages 1 and 2: `lines = [line.rstrip() for line in lines]` followed by
`lines = [mask_uuid4s(line) for line in lines]`. -/
def stage12 (input : List Line) : List Line :=
  (input.map rstrip).map mask_uuid4s

/-- The whole in-memory pipeline of `main` (everything between reading and
writing the file). -/
def normalizeDoc (input : List Line) : List Line :=
  trimTrailingBlanks (mainLoop (stage12 input) false false)

/-- `output_file.write("\n".join(result_lines) + "\n")` as a character list. -/
def serialize (ls : List Line) : List Char :=
  List.intercalate ['\n'] ls ++ ['\n']

/-- Modelled from the spec: sentinel truncation as a separate full pass —
"scan lines from the start; on the first line exactly equal to
`-- YB_DATA_END`, discard that line and all following lines.  If never found,
no truncation." -/
def specTruncate (ls : List Line) : List Line :=
  ls.takeWhile (fun l => !(decide (l = YB_DATA_END)))

/-- Modelled from the spec: the sanitizer-block elision state machine as its
own full pass (the main loop with no sentinel check). -/
def elideLoop : List Line → Bool → Bool → List Line
  | [], _, _ => []
  | l :: rest, skipping, justStopped =>
    let justStarted : Bool := decide (l = SANITIZER_SEPARATOR_LINE) && headerNext rest
    let skipping1 : Bool := skipping || justStarted
    let emit : Bool := !skipping1 && !(justStopped && (strip l).isEmpty)
    let close : Bool :=
      skipping1 && decide (l = SANITIZER_SEPARATOR_LINE) && !justStarted
    (if emit then [l] else []) ++ elideLoop rest (if close then false else skipping1) close

/-- Whether some line equal to the separator is immediately followed by the
suppressions header (the condition that opens, or re-arms, a skipped block). -/
def hasTrigger : List Line → Bool
  | a :: b :: rest =>
    (decide (a = SANITIZER_SEPARATOR_LINE) && decide (b = SUPPRESSIONS_USED)) ||
      hasTrigger (b :: rest)
  | _ => false

/-! ### Well-formedness of the match-start list and the splice loop -/

/-- The shape invariant of `uuid_start_indices` relative to a current splice
position `prev`: starts are sorted, at least 36 apart, and every match fits in
the string. -/
def StartsOK (cs : List Char) : Nat → List Nat → Prop
  | _, [] => True
  | prev, j :: rest => prev ≤ j ∧ j + 36 ≤ cs.length ∧ StartsOK cs (j + 36) rest

theorem startsOK_weaken {cs : List Char} {q : Nat} {S : List Nat}
    (h : StartsOK cs q S) {p : Nat} (hpq : p ≤ q) : StartsOK cs p S := by
  cases S with
  | nil => trivial
  | cons j rest =>
    obtain ⟨h1, h2, h3⟩ := h
    exact ⟨le_trans hpq h1, h2, h3⟩

theorem startsOK_mem {cs : List Char} {prev : Nat} {S : List Nat}
    (h : StartsOK cs prev S) {j : Nat} (hj : j ∈ S) :
    prev ≤ j ∧ j + 36 ≤ cs.length := by
  induction S generalizing prev with
  | nil => cases hj
  | cons a rest ih =>
    obtain ⟨h1, h2, h3⟩ := h
    rcases List.mem_cons.mp hj with rfl | hj2
    · exact ⟨h1, h2⟩
    · have := ih h3 hj2
      exact ⟨by omega, this.2⟩

theorem maskStr_length : MASK_STR.length = 36 := by decide

theorem spliceMaskAux_length {cs : List Char} {prev : Nat} {S : List Nat}
    (h : StartsOK cs prev S) :
    (spliceMaskAux cs prev S).length = cs.length - prev := by
  induction S generalizing prev with
  | nil => simp [spliceMaskAux]
  | cons j rest ih =>
    obtain ⟨h1, h2, h3⟩ := h
    simp only [spliceMaskAux, List.length_append, List.length_take, List.length_drop,
      maskStr_length, ih h3]
    omega

theorem spliceMaskAux_getElem_out {cs : List Char} {prev : Nat} {S : List Nat}
    (h : StartsOK cs prev S) {p : Nat} (hp : prev ≤ p)
    (hout : ∀ j ∈ S, ¬(j ≤ p ∧ p < j + 36)) :
    (spliceMaskAux cs prev S)[p - prev]? = cs[p]? := by
  induction S generalizing prev with
  | nil =>
    simp only [spliceMaskAux, List.getElem?_drop]
    congr 1
    omega
  | cons j rest ih =>
    obtain ⟨h1, h2, h3⟩ := h
    have hj := hout j (by simp)
    have hA : ((cs.drop prev).take (j - prev)).length = j - prev := by
      simp only [List.length_take, List.length_drop]
      omega
    have hAM : ((cs.drop prev).take (j - prev) ++ MASK_STR).length = (j - prev) + 36 := by
      simp only [List.length_append, hA, maskStr_length]
    simp only [spliceMaskAux]
    rcases Nat.lt_or_ge p j with hpj | hjp
    · rw [List.getElem?_append_left (by rw [hAM]; omega),
        List.getElem?_append_left (by rw [hA]; omega),
        List.getElem?_take_of_lt (by omega), List.getElem?_drop]
      congr 1
      omega
    · have hjp36 : j + 36 ≤ p := by omega
      rw [List.getElem?_append_right (by rw [hAM]; omega), hAM]
      have he : p - prev - ((j - prev) + 36) = p - (j + 36) := by omega
      rw [he]
      exact ih h3 (by omega) (fun j2 hj2 => hout j2 (by simp [hj2]))

theorem spliceMaskAux_getElem_in {cs : List Char} {prev : Nat} {S : List Nat}
    (h : StartsOK cs prev S) {j : Nat} (hj : j ∈ S) {k : Nat} (hk : k < 36) :
    (spliceMaskAux cs prev S)[j + k - prev]? = MASK_STR[k]? := by
  induction S generalizing prev with
  | nil => cases hj
  | cons a rest ih =>
    obtain ⟨h1, h2, h3⟩ := h
    have hA : ((cs.drop prev).take (a - prev)).length = a - prev := by
      simp only [List.length_take, List.length_drop]
      omega
    have hAM : ((cs.drop prev).take (a - prev) ++ MASK_STR).length = (a - prev) + 36 := by
      simp only [List.length_append, hA, maskStr_length]
    simp only [spliceMaskAux]
    rcases List.mem_cons.mp hj with rfl | hj2
    · rw [List.getElem?_append_left (by rw [hAM]; omega),
        List.getElem?_append_right (by rw [hA]; omega), hA]
      congr 1
      omega
    · have ha : a + 36 ≤ j := (startsOK_mem h3 hj2).1
      rw [List.getElem?_append_right (by rw [hAM]; omega), hAM]
      have he : j + k - prev - ((a - prev) + 36) = j + k - (a + 36) := by omega
      rw [he]
      exact ih h3 hj2

/-! ### The scan for UUID matches -/

theorem uuidAt_le {cs : List Char} {i : Nat} (h : uuidAt cs i = true) :
    i + 36 ≤ cs.length := by
  have := (Bool.and_eq_true _ _).mp h
  exact of_decide_eq_true this.1

theorem uuidAt_class {cs : List Char} {i : Nat} (h : uuidAt cs i = true) :
    ∀ k, k < 36 → uuidClassAt k (cs.getD (i + k) ' ') = true := by
  have := (Bool.and_eq_true _ _).mp h
  intro k hk
  exact List.all_eq_true.mp this.2 k (List.mem_range.mpr hk)

theorem uuidAt_of {cs : List Char} {i : Nat} (hlen : i + 36 ≤ cs.length)
    (hcl : ∀ k, k < 36 → uuidClassAt k (cs.getD (i + k) ' ') = true) :
    uuidAt cs i = true := by
  apply (Bool.and_eq_true _ _).mpr
  refine ⟨decide_eq_true hlen, List.all_eq_true.mpr ?_⟩
  intro k hk
  exact hcl k (List.mem_range.mp hk)

theorem findUuidStartsAux_ok (cs : List Char) :
    ∀ fuel i, StartsOK cs i (findUuidStartsAux cs fuel i) := by
  intro fuel
  induction fuel with
  | zero => intro i; trivial
  | succ fuel ih =>
    intro i
    simp only [findUuidStartsAux]
    by_cases hi : i < cs.length
    · simp only [hi, if_true]
      by_cases hu : uuidAt cs i = true
      · simp only [hu, if_true]
        exact ⟨le_refl i, uuidAt_le hu, ih (i + 36)⟩
      · simp only [hu, if_false]
        exact startsOK_weaken (ih (i + 1)) (by omega)
    · simp only [hi, if_false]
      trivial

theorem findUuidStartsAux_cover (cs : List Char) :
    ∀ fuel i p, cs.length ≤ i + fuel → i ≤ p → uuidAt cs p = true →
      ∃ j ∈ findUuidStartsAux cs fuel i, j ≤ p ∧ p < j + 36 := by
  intro fuel
  induction fuel with
  | zero =>
    intro i p hfuel hip hp
    have := uuidAt_le hp
    omega
  | succ fuel ih =>
    intro i p hfuel hip hp
    simp only [findUuidStartsAux]
    by_cases hi : i < cs.length
    · simp only [hi, if_true]
      by_cases hu : uuidAt cs i = true
      · simp only [hu, if_true]
        by_cases hp36 : p < i + 36
        · exact ⟨i, by simp, hip, hp36⟩
        · obtain ⟨j, hj, hj1, hj2⟩ := ih (i + 36) p (by omega) (by omega) hp
          exact ⟨j, by simp [hj], hj1, hj2⟩
      · simp only [hu, if_false]
        have hne : i ≠ p := by
          intro he
          rw [he] at hu
          exact hu hp
        exact ih (i + 1) p (by omega) (by omega) hp
    · have := uuidAt_le hp
      omega

theorem findUuidStarts_cover {cs : List Char} {p : Nat} (h : uuidAt cs p = true) :
    ∃ j ∈ findUuidStarts cs, j ≤ p ∧ p < j + 36 :=
  findUuidStartsAux_cover cs cs.length 0 p (by omega) (Nat.zero_le p) h

theorem findUuidStartsAux_nil {cs : List Char} (hall : ∀ p, uuidAt cs p = false) :
    ∀ fuel i, findUuidStartsAux cs fuel i = [] := by
  intro fuel
  induction fuel with
  | zero => intro i; rfl
  | succ fuel ih =>
    intro i
    simp only [findUuidStartsAux, hall i, if_false, ih (i + 1)]
    split <;> rfl

theorem findUuidStarts_ok (cs : List Char) : StartsOK cs 0 (findUuidStarts cs) :=
  findUuidStartsAux_ok cs cs.length 0

/-! ### Positional characterization of `mask_uuid4s` -/

theorem mask_length (cs : List Char) : (mask_uuid4s cs).length = cs.length := by
  have := spliceMaskAux_length (findUuidStarts_ok cs)
  simpa [mask_uuid4s] using this

theorem mask_getElem_out {cs : List Char} {p : Nat}
    (hout : ∀ j ∈ findUuidStarts cs, ¬(j ≤ p ∧ p < j + 36)) :
    (mask_uuid4s cs)[p]? = cs[p]? := by
  have := spliceMaskAux_getElem_out (findUuidStarts_ok cs) (Nat.zero_le p) hout
  simpa [mask_uuid4s] using this

theorem mask_getElem_in {cs : List Char} {j : Nat} (hj : j ∈ findUuidStarts cs)
    {k : Nat} (hk : k < 36) :
    (mask_uuid4s cs)[j + k]? = MASK_STR[k]? := by
  have := spliceMaskAux_getElem_in (findUuidStarts_ok cs) hj hk
  simpa [mask_uuid4s] using this

theorem mask_getD_out {cs : List Char} {p : Nat}
    (hout : ∀ j ∈ findUuidStarts cs, ¬(j ≤ p ∧ p < j + 36)) :
    (mask_uuid4s cs).getD p ' ' = cs.getD p ' ' := by
  rw [List.getD_eq_getElem?_getD, List.getD_eq_getElem?_getD, mask_getElem_out hout]

theorem mask_getD_in {cs : List Char} {j : Nat} (hj : j ∈ findUuidStarts cs)
    {k : Nat} (hk : k < 36) :
    (mask_uuid4s cs).getD (j + k) ' ' = MASK_STR.getD k ' ' := by
  rw [List.getD_eq_getElem?_getD, List.getD_eq_getElem?_getD, mask_getElem_in hj hk]

theorem mask_fixed_of_no_match {m : List Char} (hall : ∀ p, uuidAt m p = false) :
    mask_uuid4s m = m := by
  unfold mask_uuid4s findUuidStarts
  rw [findUuidStartsAux_nil hall]
  simp [spliceMaskAux]

/-! ### No UUID-shaped substring survives masking -/

theorem maskStr_class_false : ∀ k, k < 36 → uuidClassAt k '*' = false := by decide

theorem maskStr_getD_zero : MASK_STR.getD 0 ' ' = '*' := by decide

theorem maskStr_getD_fifteen : MASK_STR.getD 15 ' ' = '*' := by decide

theorem maskStr_class_zero : ∀ m, m < 36 →
    uuidClassAt 0 (MASK_STR.getD m ' ') = true → m = 14 := by decide

theorem maskStr_no_space : ∀ m, m < 36 → isPySpace (MASK_STR.getD m ' ') = false := by
  decide

theorem uuidAt_mask_false (cs : List Char) (p : Nat) :
    uuidAt (mask_uuid4s cs) p = false := by
  cases hx : uuidAt (mask_uuid4s cs) p with
  | false => rfl
  | true =>
    exfalso
    have hlen : p + 36 ≤ cs.length := by
      have := uuidAt_le hx
      rwa [mask_length] at this
    have hcls := uuidAt_class hx
    by_cases hint : ∃ j ∈ findUuidStarts cs, j < p + 36 ∧ p < j + 36
    · obtain ⟨j, hj, hj1, hj2⟩ := hint
      rcases Nat.lt_or_ge p j with hpj | hjp
      · -- the span start `j` falls inside the window: its character is `*`
        have hd : j - p < 36 := by omega
        have hchar : (mask_uuid4s cs).getD (p + (j - p)) ' ' = '*' := by
          have he : p + (j - p) = j + 0 := by omega
          rw [he, mask_getD_in hj (by omega), maskStr_getD_zero]
        have := hcls (j - p) hd
        rw [hchar] at this
        rw [maskStr_class_false (j - p) hd] at this
        exact Bool.false_ne_true this
      · -- the window starts inside the span: offset forced to 14, killed at 15
        have hm : p - j < 36 := by omega
        have hchar : (mask_uuid4s cs).getD (p + 0) ' ' = MASK_STR.getD (p - j) ' ' := by
          have he : p + 0 = j + (p - j) := by omega
          rw [he, mask_getD_in hj hm]
        have h0 := hcls 0 (by omega)
        rw [hchar] at h0
        have h14 : p - j = 14 := maskStr_class_zero (p - j) hm h0
        have hchar1 : (mask_uuid4s cs).getD (p + 1) ' ' = '*' := by
          have he : p + 1 = j + 15 := by omega
          rw [he, mask_getD_in hj (by omega), maskStr_getD_fifteen]
        have h1 := hcls 1 (by omega)
        rw [hchar1] at h1
        have : uuidClassAt 1 '*' = false := maskStr_class_false 1 (by omega)
        rw [this] at h1
        exact Bool.false_ne_true h1
    · -- no recorded span meets the window, so the window is raw text,
      -- contradicting completeness of the scan
      push_neg at hint
      have hout : ∀ q, p ≤ q → q < p + 36 →
          ∀ j ∈ findUuidStarts cs, ¬(j ≤ q ∧ q < j + 36) := by
        intro q hq1 hq2 j hj hc
        have := hint j hj (by omega)
        omega
      have hraw : uuidAt cs p = true := by
        apply uuidAt_of hlen
        intro k hk
        have h1 := mask_getD_out (hout (p + k) (by omega) (by omega))
        have := hcls k hk
        rwa [h1] at this
      obtain ⟨j, hj, hj1, hj2⟩ := findUuidStarts_cover hraw
      have := hint j hj (by omega)
      omega

/-! ### Trailing-whitespace facts -/

theorem dropWhile_head_false {α} (p : α → Bool) (l : List α) {a : α} {t : List α}
    (h : l.dropWhile p = a :: t) : p a = false := by
  have := List.head?_dropWhile_not p l
  rw [h] at this
  simpa using this

theorem dropWhile_self {α} (p : α → Bool) (l : List α) :
    (l.dropWhile p).dropWhile p = l.dropWhile p := by
  cases h : l.dropWhile p with
  | nil => rfl
  | cons a t => simp [List.dropWhile_cons, dropWhile_head_false p l h]

theorem rstrip_getLast_no_space (cs : List Char) :
    ∀ c, (rstrip cs).getLast? = some c → isPySpace c = false := by
  intro c hc
  unfold rstrip at hc
  rw [List.getLast?_reverse] at hc
  have := List.head?_dropWhile_not isPySpace cs.reverse
  rw [hc] at this
  simpa using this

theorem rstrip_eq_self {cs : List Char}
    (h : ∀ c, cs.getLast? = some c → isPySpace c = false) : rstrip cs = cs := by
  unfold rstrip
  suffices hs : cs.reverse.dropWhile isPySpace = cs.reverse by
    rw [hs, List.reverse_reverse]
  cases hrev : cs.reverse with
  | nil => rfl
  | cons a t =>
    have ha : cs.getLast? = some a := by
      rw [← List.head?_reverse, hrev]
      rfl
    simp [List.dropWhile_cons, h a ha]

theorem rstrip_idem (cs : List Char) : rstrip (rstrip cs) = rstrip cs :=
  rstrip_eq_self (rstrip_getLast_no_space cs)

theorem mask_getLast_no_space {cs : List Char}
    (h : ∀ c, cs.getLast? = some c → isPySpace c = false) :
    ∀ c, (mask_uuid4s cs).getLast? = some c → isPySpace c = false := by
  intro c hc
  rw [List.getLast?_eq_getElem?, mask_length] at hc
  rcases Nat.eq_zero_or_pos cs.length with hz | hpos
  · rw [List.length_eq_zero.mp hz] at hc
    have : mask_uuid4s ([] : List Char) = [] := by decide
    rw [this] at hc
    simp at hc
  · by_cases hcov : ∃ j ∈ findUuidStarts cs, j ≤ cs.length - 1 ∧ cs.length - 1 < j + 36
    · obtain ⟨j, hj, hj1, hj2⟩ := hcov
      have hk : cs.length - 1 - j < 36 := by omega
      have he : cs.length - 1 = j + (cs.length - 1 - j) := by omega
      rw [he, mask_getElem_in hj hk] at hc
      have hd := maskStr_no_space (cs.length - 1 - j) hk
      rw [List.getD_eq_getElem?_getD, hc] at hd
      exact hd
    · push_neg at hcov
      rw [mask_getElem_out (fun j hj hcon => by
        have := hcov j hj
        omega)] at hc
      rw [← List.getLast?_eq_getElem?] at hc
      exact h c hc

theorem mask_idem (cs : List Char) : mask_uuid4s (mask_uuid4s cs) = mask_uuid4s cs :=
  mask_fixed_of_no_match (uuidAt_mask_false cs)

theorem rstrip_mask_rstrip (cs : List Char) :
    rstrip (mask_uuid4s (rstrip cs)) = mask_uuid4s (rstrip cs) :=
  rstrip_eq_self (mask_getLast_no_space (rstrip_getLast_no_space cs))

theorem map_id_of_mem {α} (l : List α) (f : α → α) (h : ∀ x ∈ l, f x = x) :
    l.map f = l := by
  induction l with
  | nil => rfl
  | cons a t ih => simp [h a (by simp), ih fun x hx => h x (by simp [hx])]

/-! ### Facts about the main loop and the trailing trim -/

theorem mainLoop_sublist (ls : List Line) (sk js : Bool) :
    List.Sublist (mainLoop ls sk js) ls := by
  induction ls generalizing sk js with
  | nil => simp [mainLoop]
  | cons l rest ih =>
    simp only [mainLoop]
    split
    · exact List.nil_sublist _
    · split
      · exact List.Sublist.cons₂ l (ih _ _)
      · simp only [List.nil_append]
        exact List.Sublist.cons l (ih _ _)

theorem sentinel_not_mem_mainLoop (ls : List Line) (sk js : Bool) :
    YB_DATA_END ∉ mainLoop ls sk js := by
  induction ls generalizing sk js with
  | nil => simp [mainLoop]
  | cons l rest ih =>
    simp only [mainLoop]
    split
    · simp
    · rename_i hne
      intro hmem
      rcases List.mem_append.mp hmem with hm | hm
      · have : YB_DATA_END ∈ [l] := by
          revert hm
          split
          · exact fun hm => hm
          · simp
        simp at this
        exact hne this.symm
      · exact ih _ _ hm

theorem mainLoop_id {ls : List Line} (hs : YB_DATA_END ∉ ls)
    (ht : hasTrigger ls = false) : mainLoop ls false false = ls := by
  induction ls with
  | nil => rfl
  | cons l rest ih =>
    have hl : ¬(l = YB_DATA_END) := fun he => hs (by simp [he])
    have hs2 : YB_DATA_END ∉ rest := fun hm => hs (by simp [hm])
    have hjs : (decide (l = SANITIZER_SEPARATOR_LINE) && headerNext rest) = false := by
      cases rest with
      | nil => simp [headerNext]
      | cons b t =>
        have h2 : hasTrigger (l :: b :: t) = false := ht
        simp only [hasTrigger, Bool.or_eq_false_iff] at h2
        simpa [headerNext] using h2.1
    have ht2 : hasTrigger rest = false := by
      cases rest with
      | nil => rfl
      | cons b t =>
        have h2 : hasTrigger (l :: b :: t) = false := ht
        simp only [hasTrigger, Bool.or_eq_false_iff] at h2
        exact h2.2
    simp [mainLoop, hl, hjs, ih hs2 ht2]

theorem trim_sublist (ls : List Line) :
    List.Sublist (trimTrailingBlanks ls) ls := by
  have h := (List.dropWhile_sublist (l := ls.reverse)
    (fun l => (strip l).isEmpty)).reverse
  rwa [List.reverse_reverse] at h

theorem trim_idem (ls : List Line) :
    trimTrailingBlanks (trimTrailingBlanks ls) = trimTrailingBlanks ls := by
  unfold trimTrailingBlanks
  rw [List.reverse_reverse, dropWhile_self]

theorem trim_getLast_not_blank (ls : List Line) :
    ∀ l, (trimTrailingBlanks ls).getLast? = some l → (strip l).isEmpty = false := by
  intro l hl
  unfold trimTrailingBlanks at hl
  rw [List.getLast?_reverse] at hl
  have := List.head?_dropWhile_not (fun l => (strip l).isEmpty) ls.reverse
  rw [hl] at this
  simpa using this

/-! ### Interleaved loop versus two separate passes -/

theorem headerNext_specTruncate (rest : List Line) :
    headerNext (specTruncate rest) = headerNext rest := by
  cases rest with
  | nil => rfl
  | cons b t =>
    by_cases hb : b = YB_DATA_END
    · subst hb
      have h1 : specTruncate (YB_DATA_END :: t) = [] := by
        simp [specTruncate, List.takeWhile_cons]
      rw [h1]
      have : headerNext (YB_DATA_END :: t) = false := by
        simp [headerNext]
        decide
      rw [this]
      rfl
    · have h1 : specTruncate (b :: t) = b :: specTruncate t := by
        simp [specTruncate, List.takeWhile_cons, hb]
      rw [h1]
      rfl

theorem mainLoop_eq_elide (ls : List Line) (sk js : Bool) :
    mainLoop ls sk js = elideLoop (specTruncate ls) sk js := by
  induction ls generalizing sk js with
  | nil => rfl
  | cons l rest ih =>
    by_cases hl : l = YB_DATA_END
    · subst hl
      have h1 : specTruncate (YB_DATA_END :: rest) = [] := by
        simp [specTruncate, List.takeWhile_cons]
      simp [mainLoop, h1, elideLoop]
    · have h1 : specTruncate (l :: rest) = l :: specTruncate rest := by
        simp [specTruncate, List.takeWhile_cons, hl]
      rw [h1]
      simp only [mainLoop, elideLoop, if_neg hl, headerNext_specTruncate, ih]

theorem specTruncate_eq_take {ls : List Line} {k : Nat}
    (h1 : YB_DATA_END ∉ ls.take k) (h2 : ls[k]? = some YB_DATA_END) :
    specTruncate ls = ls.take k := by
  induction ls generalizing k with
  | nil => simp at h2
  | cons l rest ih =>
    cases k with
    | zero =>
      rw [List.getElem?_cons_zero] at h2
      have hl : l = YB_DATA_END := by
        injection h2
      simp [specTruncate, List.takeWhile_cons, hl]
    | succ k =>
      have hl : ¬(l = YB_DATA_END) := fun he => h1 (by simp [List.take_succ_cons, he])
      have h1b : YB_DATA_END ∉ rest.take k := fun hm => h1 (by simp [List.take_succ_cons, hm])
      have h2b : rest[k]? = some YB_DATA_END := by
        rw [List.getElem?_cons_succ] at h2
        exact h2
      simp [specTruncate, List.takeWhile_cons, hl, List.take_succ_cons]
      exact ih h1b h2b

theorem normalizeDoc_sublist (input : List Line) :
    List.Sublist (normalizeDoc input) (stage12 input) :=
  (trim_sublist _).trans (mainLoop_sublist _ _ _)

/-! ### Conditional idempotence of the pipeline -/

theorem normalizeDoc_line_fixed {input : List Line} {l : Line}
    (hl : l ∈ normalizeDoc input) : rstrip l = l ∧ mask_uuid4s l = l := by
  have hl2 : l ∈ stage12 input := (normalizeDoc_sublist input).subset hl
  unfold stage12 at hl2
  rcases List.mem_map.mp hl2 with ⟨y, hy, rfl⟩
  rcases List.mem_map.mp hy with ⟨raw, _, rfl⟩
  exact ⟨rstrip_mask_rstrip raw, mask_idem (rstrip raw)⟩

theorem normalizeDoc_idem {input : List Line}
    (h : hasTrigger (normalizeDoc input) = false) :
    normalizeDoc (normalizeDoc input) = normalizeDoc input := by
  have h12 : stage12 (normalizeDoc input) = normalizeDoc input := by
    unfold stage12
    rw [map_id_of_mem _ rstrip (fun x hx => (normalizeDoc_line_fixed hx).1),
      map_id_of_mem _ mask_uuid4s (fun x hx => (normalizeDoc_line_fixed hx).2)]
  have hsent : YB_DATA_END ∉ normalizeDoc input := fun hm =>
    sentinel_not_mem_mainLoop (stage12 input) false false ((trim_sublist _).subset hm)
  show trimTrailingBlanks (mainLoop (stage12 (normalizeDoc input)) false false) =
    normalizeDoc input
  rw [h12, mainLoop_id hsent h]
  exact trim_idem _

theorem blank_ne_sentinel {l : Line} (h : (strip l).isEmpty = true) :
    ¬(l = YB_DATA_END) := by
  intro he
  rw [he] at h
  exact absurd h (by decide)

theorem blank_ne_sep {l : Line} (h : (strip l).isEmpty = true) :
    ¬(l = SANITIZER_SEPARATOR_LINE) := by
  intro he
  rw [he] at h
  exact absurd h (by decide)

example : rstrip ("foo   ".toList) = "foo".toList := by decide

example :
    mask_uuid4s ("id=123e4567-e89b-42d3-a456-426614174000 done".toList) =
      "id=********-****-4***-****-************ done".toList := by decide

example :
    normalizeDoc
      ["keep1".toList, SANITIZER_SEPARATOR_LINE, "Suppressions used:".toList,
       "  count      bytes template".toList, "      1        552 save_ps_display_args".toList,
       SANITIZER_SEPARATOR_LINE, [], "keep2".toList] =
      ["keep1".toList, "keep2".toList] := by decide

example :
    normalizeDoc ["a".toList, "b".toList, YB_DATA_END, "c".toList, "d".toList] =
      ["a".toList, "b".toList] := by decide

example : serialize (normalizeDoc []) = ['\n'] := by decide

/-! ### The claims -/

/-- C1 (amended): the full pipeline is idempotent on every input whose
single-pass output contains no separator line immediately followed by the
`Suppressions used:` header; in general the elision stage can create such a
new adjacency in its output, and a second run then removes further lines. -/
theorem c1_idempotent_on_trigger_free (input : List Line)
    (h : hasTrigger (normalizeDoc input) = false) :
    normalizeDoc (normalizeDoc input) = normalizeDoc input :=
  normalizeDoc_idem h

/-- C1 witness: a document with a sanitizer block, trailing whitespace and
trailing blank lines normalizes to a trigger-free document, and re-running
the pipeline is the identity there. -/
theorem c1_idempotent_witness :
    hasTrigger (normalizeDoc
      [('k' :: ['1']), SANITIZER_SEPARATOR_LINE, SUPPRESSIONS_USED,
       [' ', 'x'], SANITIZER_SEPARATOR_LINE, [], ('k' :: ['2']), [' ']]) = false ∧
    normalizeDoc (normalizeDoc
      [('k' :: ['1']), SANITIZER_SEPARATOR_LINE, SUPPRESSIONS_USED,
       [' ', 'x'], SANITIZER_SEPARATOR_LINE, [], ('k' :: ['2']), [' ']]) =
      normalizeDoc
      [('k' :: ['1']), SANITIZER_SEPARATOR_LINE, SUPPRESSIONS_USED,
       [' ', 'x'], SANITIZER_SEPARATOR_LINE, [], ('k' :: ['2']), [' ']] :=
  ⟨by decide,
   c1_idempotent_on_trigger_free
     [('k' :: ['1']), SANITIZER_SEPARATOR_LINE, SUPPRESSIONS_USED,
      [' ', 'x'], SANITIZER_SEPARATOR_LINE, [], ('k' :: ['2']), [' ']] (by decide)⟩

/-- C1 counterexample: on this document the first pass elides a block whose
closing separator is followed (after one absorbed blank line) by a stray
`Suppressions used:` line, leaving `separator, Suppressions used:, z` in the
output; the second pass treats that as a fresh block and deletes everything,
so running the pipeline twice differs from running it once. -/
theorem c1_idempotent_counterexample :
    normalizeDoc (normalizeDoc
      [SANITIZER_SEPARATOR_LINE, SANITIZER_SEPARATOR_LINE, SUPPRESSIONS_USED,
       SANITIZER_SEPARATOR_LINE, [], SUPPRESSIONS_USED, ['z']]) ≠
      normalizeDoc
      [SANITIZER_SEPARATOR_LINE, SANITIZER_SEPARATOR_LINE, SUPPRESSIONS_USED,
       SANITIZER_SEPARATOR_LINE, [], SUPPRESSIONS_USED, ['z']] := by decide

/-- C2 (amended): while in `SKIPPING`, a separator line closes the block
(transition back to `NORMAL`, separator dropped) exactly when its immediately
following line is not `Suppressions used:`; a separator whose next line is the
header re-arms the skip and does not close the block, even at a scan position
other than the one that entered `SKIPPING`. -/
theorem c2_skipping_close_on_separator (l : Line) (rest : List Line) (js : Bool)
    (hsep : l = SANITIZER_SEPARATOR_LINE) (hnext : headerNext rest = false) :
    mainLoop (l :: rest) true js = mainLoop rest false true ∧
    mainLoopState (l :: rest) true js = mainLoopState rest false true := by
  subst hsep
  have hsent : ¬(SANITIZER_SEPARATOR_LINE = YB_DATA_END) := by decide
  constructor
  · simp [mainLoop, hsent, hnext]
  · simp [mainLoopState, hsent, hnext]

/-- C2 witness: a separator whose next line is ordinary content closes the
block. -/
theorem c2_skipping_close_witness :
    mainLoop [SANITIZER_SEPARATOR_LINE, ['x']] true false =
      mainLoop [['x']] false true ∧
    mainLoopState [SANITIZER_SEPARATOR_LINE, ['x']] true false =
      mainLoopState [['x']] false true :=
  c2_skipping_close_on_separator SANITIZER_SEPARATOR_LINE [['x']] false rfl (by decide)

/-- C2 counterexample: with the machine in `SKIPPING` (entered at an earlier
scan position, hence at a position other than the entry), a separator line
immediately followed by `Suppressions used:` does NOT transition back to
`NORMAL` — the final state is still `skipping = true` and every line is
dropped — refuting the claim that any separator other than the entry one
closes the block. -/
theorem c2_skipping_close_counterexample :
    mainLoopState [SANITIZER_SEPARATOR_LINE, SUPPRESSIONS_USED] true false =
      (true, false) ∧
    mainLoop [SANITIZER_SEPARATOR_LINE, SUPPRESSIONS_USED] true false = [] := by
  decide

/-- C3 (amended): if the first line equal to `-- YB_DATA_END` in the trimmed,
masked document sits at 0-based index `k`, then the final output equals the
remaining stages (sanitizer-block elision, then trailing-blank trim) applied
to exactly the first `k` lines — independent of everything after the
sentinel — rather than those `k` lines verbatim. -/
theorem c3_sentinel_truncation (input : List Line) (k : Nat)
    (h1 : YB_DATA_END ∉ (stage12 input).take k)
    (h2 : (stage12 input)[k]? = some YB_DATA_END) :
    normalizeDoc input =
      trimTrailingBlanks (elideLoop ((stage12 input).take k) false false) := by
  unfold normalizeDoc
  rw [mainLoop_eq_elide, specTruncate_eq_take h1 h2]

/-- C3 witness: the sentinel at index 1 makes the output the processed first
line only. -/
theorem c3_sentinel_truncation_witness :
    normalizeDoc [['x'], YB_DATA_END, ['y']] =
      trimTrailingBlanks
        (elideLoop ((stage12 [['x'], YB_DATA_END, ['y']]).take 1) false false) :=
  c3_sentinel_truncation [['x'], YB_DATA_END, ['y']] 1 (by decide) (by decide)

/-- C3 counterexample: the first sentinel is at line 3 (1-based `k = 3`,
0-based index 2), but the final output is not the first `k - 1 = 2` lines of
the trimmed, masked document: the later stages (here the trailing-blank trim)
still shrink them. -/
theorem c3_sentinel_truncation_counterexample :
    (stage12 [['a'], [], YB_DATA_END, ['b']])[2]? = some YB_DATA_END ∧
    YB_DATA_END ∉ (stage12 [['a'], [], YB_DATA_END, ['b']]).take 2 ∧
    normalizeDoc [['a'], [], YB_DATA_END, ['b']] ≠
      (stage12 [['a'], [], YB_DATA_END, ['b']]).take 2 := by decide

/-- C4: the interleaved per-line loop of the code (sentinel check and skip
machine in one pass) computes the same line sequence as first truncating at
the sentinel in a separate full pass and then running the elision state
machine as a second full pass. -/
theorem c4_two_pass_equivalence (input : List Line) :
    mainLoop (stage12 input) false false =
      elideLoop (specTruncate (stage12 input)) false false :=
  mainLoop_eq_elide (stage12 input) false false

/-- C5: the serialized output is the surviving lines joined by single
newlines plus exactly one trailing newline; it always ends in a newline; the
last surviving line is never blank; and an empty surviving sequence
serializes to exactly one newline character. -/
theorem c5_serialization (input : List Line) :
    serialize (normalizeDoc input) =
      List.intercalate ['\n'] (normalizeDoc input) ++ ['\n'] ∧
    (serialize (normalizeDoc input)).getLast? = some '\n' ∧
    (∀ l, (normalizeDoc input).getLast? = some l → (strip l).isEmpty = false) ∧
    (normalizeDoc input = [] → serialize (normalizeDoc input) = ['\n']) := by
  refine ⟨rfl, List.getLast?_concat _, fun l hl => trim_getLast_not_blank _ l hl,
    fun h => by rw [h]; rfl⟩

/-- C5 witness: the empty input file serializes to a single newline. -/
theorem c5_serialization_witness :
    serialize (normalizeDoc ([] : List Line)) = ['\n'] :=
  (c5_serialization []).2.2.2 (by decide)

/-- C6: masking preserves the line exactly outside the matched spans: the
masked line has the same length, every position not covered by a recorded
match start keeps its original character, and each matched span carries the
fixed 36-character mask. -/
theorem c6_mask_preserves_surroundings (cs : List Char) :
    (mask_uuid4s cs).length = cs.length ∧
    (∀ p, (∀ j ∈ findUuidStarts cs, ¬(j ≤ p ∧ p < j + 36)) →
      (mask_uuid4s cs)[p]? = cs[p]?) ∧
    (∀ j ∈ findUuidStarts cs, ∀ k, k < 36 →
      (mask_uuid4s cs)[j + k]? = MASK_STR[k]?) :=
  ⟨mask_length cs, fun _ h => mask_getElem_out h, fun _ hj _ hk => mask_getElem_in hj hk⟩

/-- C6 witness: on the spec's example line the mask keeps length, keeps the
character before the UUID, and writes the mask at the match start (index 3). -/
theorem c6_mask_preserves_witness :
    (mask_uuid4s ("id=123e4567-e89b-42d3-a456-426614174000 done".toList)).length =
      ("id=123e4567-e89b-42d3-a456-426614174000 done".toList).length ∧
    (mask_uuid4s ("id=123e4567-e89b-42d3-a456-426614174000 done".toList))[0]? =
      ("id=123e4567-e89b-42d3-a456-426614174000 done".toList)[0]? ∧
    (mask_uuid4s ("id=123e4567-e89b-42d3-a456-426614174000 done".toList))[3 + 0]? =
      MASK_STR[0]? :=
  ⟨(c6_mask_preserves_surroundings _).1,
   (c6_mask_preserves_surroundings ("id=123e4567-e89b-42d3-a456-426614174000 done".toList)).2.1
     0 (by decide),
   (c6_mask_preserves_surroundings ("id=123e4567-e89b-42d3-a456-426614174000 done".toList)).2.2
     3 (by decide) 0 (by decide)⟩

/-- C7: after masking, no position of the output line matches the UUID-v4
pattern (8-4-4-4-12 hex, version nibble 4, variant nibble 8/9/A/B,
case-insensitive). -/
theorem c7_no_uuid_survives (cs : List Char) (p : Nat) :
    uuidAt (mask_uuid4s cs) p = false :=
  uuidAt_mask_false cs p

/-- C8 (amended): immediately after a block's closing separator (state
`skipping = false`, `just_stopped = true`) exactly one blank line is dropped
and the flag clears; a second blank line is emitted; a non-blank line is
emitted normally with the flag cleared unless it itself opens a new sanitizer
block (separator immediately followed by the header), in which case skipping
restarts and the line is dropped. -/
theorem c8_one_shot_blank_absorption :
    (∀ (l : Line) (rest : List Line), (strip l).isEmpty = true →
      mainLoop (l :: rest) false true = mainLoop rest false false) ∧
    (∀ (l : Line) (rest : List Line), (strip l).isEmpty = true →
      mainLoop (l :: rest) false false = l :: mainLoop rest false false) ∧
    (∀ (l : Line) (rest : List Line), (strip l).isEmpty = false →
      ¬(l = YB_DATA_END) → ¬(l = SANITIZER_SEPARATOR_LINE ∧ headerNext rest = true) →
      mainLoop (l :: rest) false true = l :: mainLoop rest false false) := by
  refine ⟨fun l rest h => ?_, fun l rest h => ?_, fun l rest h hsent htrig => ?_⟩
  · have hd : decide (l = SANITIZER_SEPARATOR_LINE) = false :=
      decide_eq_false (blank_ne_sep h)
    simp [mainLoop, blank_ne_sentinel h, hd, h]
  · have hd : decide (l = SANITIZER_SEPARATOR_LINE) = false :=
      decide_eq_false (blank_ne_sep h)
    simp [mainLoop, blank_ne_sentinel h, hd, h]
  · have hjs : (decide (l = SANITIZER_SEPARATOR_LINE) && headerNext rest) = false := by
      by_cases hsep : l = SANITIZER_SEPARATOR_LINE
      · have : headerNext rest = false := by
          cases hh : headerNext rest with
          | false => rfl
          | true => exact absurd ⟨hsep, hh⟩ htrig
        simp [this]
      · simp [decide_eq_false hsep]
    simp [mainLoop, hsent, hjs, h]

/-- C8 witness: one blank absorbed after a close, a blank kept when the flag
is clear, and a non-blank content line emitted after a close. -/
theorem c8_one_shot_blank_witness :
    mainLoop [[' ']] false true = mainLoop [] false false ∧
    mainLoop [[' ']] false false = [' '] :: mainLoop [] false false ∧
    mainLoop [['z']] false true = ['z'] :: mainLoop [] false false :=
  ⟨c8_one_shot_blank_absorption.1 [' '] [] (by decide),
   c8_one_shot_blank_absorption.2.1 [' '] [] (by decide),
   c8_one_shot_blank_absorption.2.2 ['z'] [] (by decide) (by decide) (by decide)⟩

/-- C8 counterexample: here the line immediately after the block's closing
separator (index 3) is non-blank — it is a separator opening a second block —
and it is NOT emitted: the whole document is consumed, refuting "if the line
immediately after the closing separator is non-blank it is emitted
normally". -/
theorem c8_one_shot_blank_counterexample :
    mainLoop [SANITIZER_SEPARATOR_LINE, SUPPRESSIONS_USED, SANITIZER_SEPARATOR_LINE,
      SANITIZER_SEPARATOR_LINE, SUPPRESSIONS_USED, ['z']] false false = [] ∧
    (strip SANITIZER_SEPARATOR_LINE).isEmpty = false := by decide

/-- C9: in `NORMAL`, a separator whose next line is not `Suppressions used:`
(including a separator with no next line at all — the lookahead is guarded
and never reads past the end) does not open a block and is emitted unchanged,
and a stray `Suppressions used:` line never opens a block and is emitted
unchanged; in both cases scanning continues in `NORMAL`. -/
theorem c9_malformed_markers_pass_through :
    (∀ (rest : List Line) (js : Bool), headerNext rest = false →
      mainLoop (SANITIZER_SEPARATOR_LINE :: rest) false js =
        SANITIZER_SEPARATOR_LINE :: mainLoop rest false false) ∧
    (∀ (rest : List Line) (js : Bool),
      mainLoop (SUPPRESSIONS_USED :: rest) false js =
        SUPPRESSIONS_USED :: mainLoop rest false false) := by
  constructor
  · intro rest js hnext
    have hsent : ¬(SANITIZER_SEPARATOR_LINE = YB_DATA_END) := by decide
    have hblank : (strip SANITIZER_SEPARATOR_LINE).isEmpty = false := by decide
    simp [mainLoop, hsent, hnext, hblank]
  · intro rest js
    have hsent : ¬(SUPPRESSIONS_USED = YB_DATA_END) := by decide
    have hsep : decide (SUPPRESSIONS_USED = SANITIZER_SEPARATOR_LINE) = false := by decide
    have hblank : (strip SUPPRESSIONS_USED).isEmpty = false := by decide
    simp [mainLoop, hsent, hsep, hblank]

/-- C9 witness: an unmatched separator as the last line of the document, and
a stray suppressions header with the absorb flag set, are both emitted. -/
theorem c9_malformed_markers_witness :
    mainLoop [SANITIZER_SEPARATOR_LINE] false false =
      SANITIZER_SEPARATOR_LINE :: mainLoop [] false false ∧
    mainLoop [SUPPRESSIONS_USED] false true =
      SUPPRESSIONS_USED :: mainLoop [] false false :=
  ⟨c9_malformed_markers_pass_through.1 [] false (by decide),
   c9_malformed_markers_pass_through.2 [] true⟩

/-- C10: the output of the whole pipeline is a subsequence of the trimmed,
masked input line sequence — the later stages only delete whole lines, never
reorder, duplicate or edit them. -/
theorem c10_output_subsequence (input : List Line) :
    List.Sublist (normalizeDoc input) (stage12 input) :=
  normalizeDoc_sublist input
